import Mathlib

/-!
Shallow embedding of the matlang compiler front end (lexer, parser,
semantic validator for the Martial DSL) and proofs of its specified
properties against this embedding.

Conventions of the embedding:
- Rust `Vec<char>` with an index becomes `List Char` with a `Nat` position.
- Rust `HashSet<String>` becomes a duplicate-free `List String` (insert is a
  no-op on a present element); `HashMap<String, V>` becomes an association
  `List (String × V)` whose entries are inserted only after a `contains_key`
  check, as in the source. List order stands in for the map's iteration
  order, which the source leaves unspecified.
- Rust `Result<T, E>` becomes `Except E T`. Methods that mutate `&mut self`
  and return `Result<(), E>` become functions returning the updated value
  paired with an optional error, so that effects made before an early
  `return Err` are kept, exactly as in the source.
- `while` loops become structurally recursive helper functions over an
  explicit `Nat` bound set to the number of remaining elements (plus one
  where the loop can run once at the boundary); the bound is the loop
  variant of the source loop and never reaches zero on the unreachable
  branch.
- The Unicode character classes used by the source (`char::is_whitespace`,
  `is_alphabetic`, `is_alphanumeric`) are modelled on their ASCII fragment,
  which is the fragment the grammar and every claim exercise.
-/

deriving instance DecidableEq for Except

namespace Matlang

/-- Position in source code for error reporting (lexer.rs `Position`). -/
structure Position where
  line : Nat
  column : Nat
deriving DecidableEq

/-- A token in the Martial DSL (lexer.rs `Token`). -/
inductive Token where
  | roles
  | state
  | sequence
  | group
  | identifier (s : String)
  | leftBrace
  | rightBrace
  | leftBracket
  | rightBracket
  | colon
  | arrow
  | comma
  | eof
deriving DecidableEq

/-- Display form of a token (lexer.rs `impl fmt::Display for Token`). -/
def tokenDisplay : Token → String
  | .roles => "roles"
  | .state => "state"
  | .sequence => "sequence"
  | .group => "group"
  | .identifier s => s
  | .leftBrace => "\x7b"
  | .rightBrace => "\x7d"
  | .leftBracket => "["
  | .rightBracket => "]"
  | .colon => ":"
  | .arrow => "->"
  | .comma => ","
  | .eof => "EOF"

/-- A token with its position (lexer.rs `PositionedToken`). -/
structure PositionedToken where
  token : Token
  position : Position
deriving DecidableEq

/-- Lexer error (lexer.rs `LexError`). -/
structure LexError where
  message : String
  position : Position
deriving DecidableEq

/-- ASCII fragment of Rust `char::is_whitespace` (Unicode White_Space). -/
def rustIsWhitespace (c : Char) : Bool :=
  c = ' ' || c = '\t' || c = '\n' || c = '\r' || c = '\x0b' || c = '\x0c'

/-- ASCII fragment of Rust `char::is_alphabetic`. -/
def rustIsAlphabetic (c : Char) : Bool :=
  ('a' ≤ c && c ≤ 'z') || ('A' ≤ c && c ≤ 'Z')

/-- The ten ASCII digit characters, as a decidable membership test. -/
def rustIsAsciiDigit (c : Char) : Bool :=
  c ∈ ['0', '1', '2', '3', '4', '5', '6', '7', '8', '9']

/-- ASCII fragment of Rust `char::is_alphanumeric`. -/
def rustIsAlphanumeric (c : Char) : Bool :=
  rustIsAlphabetic c || rustIsAsciiDigit c

/-- Body of Rust `{:?}` (Debug) formatting for a `char`, for the printable
characters and common escapes that can follow `-` in a source file. -/
def charDebugBody (c : Char) : String :=
  if c = '\n' then "\\n"
  else if c = '\t' then "\\t"
  else if c = '\r' then "\\r"
  else if c = '\\' then "\\\\"
  else if c = Char.ofNat 39 then "\\'"
  else String.singleton c

/-- Rust `{:?}` (Debug) formatting of an `Option<char>`. -/
def optCharDebug : Option Char → String
  | none => "None"
  | some c => "Some('" ++ charDebugBody c ++ "')"

/-- Lexer state (lexer.rs `Lexer`). -/
structure Lexer where
  input : List Char
  position : Nat
  line : Nat
  column : Nat
deriving DecidableEq

/-- Lexer.new. -/
def Lexer.new (input : String) : Lexer :=
  ⟨input.toList, 0, 1, 1⟩

/-- Lexer.current_position. -/
def Lexer.currentPosition (l : Lexer) : Position :=
  ⟨l.line, l.column⟩

/-- Lexer.peek. -/
def Lexer.peek (l : Lexer) : Option Char :=
  l.input[l.position]?

/-- Lexer.peek_next. -/
def Lexer.peekNext (l : Lexer) : Option Char :=
  l.input[l.position + 1]?

/-- Lexer.advance: consume the current character, updating position, line and
column. The source also returns the consumed character; callers that use it
call `peek` first here, so only the state update is modelled. -/
def Lexer.advance (l : Lexer) : Lexer :=
  match l.peek with
  | some ch =>
    if ch = '\n' then
      { l with position := l.position + 1, line := l.line + 1, column := 1 }
    else
      { l with position := l.position + 1, column := l.column + 1 }
  | none => l

/-- Loop body of Lexer.skip_whitespace; the `Nat` argument is the number of
characters left, which bounds the iterations. -/
def skipWhitespaceGo : Nat → Lexer → Lexer
  | 0, l => l
  | n + 1, l =>
    match l.peek with
    | some ch => if rustIsWhitespace ch then skipWhitespaceGo n l.advance else l
    | none => l

/-- Lexer.skip_whitespace. -/
def Lexer.skipWhitespace (l : Lexer) : Lexer :=
  skipWhitespaceGo (l.input.length - l.position) l

/-- Loop body of Lexer.skip_comment after the two `//` characters. -/
def skipCommentGo : Nat → Lexer → Lexer
  | 0, l => l
  | n + 1, l =>
    match l.peek with
    | some ch => if ch = '\n' then l else skipCommentGo n l.advance
    | none => l

/-- Lexer.skip_comment: skip the `//`, then skip until end of line. -/
def Lexer.skipComment (l : Lexer) : Lexer :=
  let l2 := l.advance.advance
  skipCommentGo (l2.input.length - l2.position) l2

/-- The whitespace-and-comments loop at the top of Lexer.next_token: skip
whitespace, and while the next two characters are `//`, skip the comment and
repeat. -/
def skipWsCommentsGo : Nat → Lexer → Lexer
  | 0, l => l.skipWhitespace
  | n + 1, l =>
    let l1 := l.skipWhitespace
    if l1.peek = some '/' ∧ l1.peekNext = some '/' then
      skipWsCommentsGo n l1.skipComment
    else l1

/-- The skip loop of Lexer.next_token as a function of the state. -/
def Lexer.skipWsComments (l : Lexer) : Lexer :=
  skipWsCommentsGo (l.input.length - l.position + 1) l

/-- Loop body of Lexer.lex_identifier, accumulating the characters read. -/
def lexIdentifierGo : Nat → List Char → Lexer → List Char × Lexer
  | 0, acc, l => (acc, l)
  | n + 1, acc, l =>
    match l.peek with
    | some ch =>
      if rustIsAlphanumeric ch || ch = '_' then
        lexIdentifierGo n (acc ++ [ch]) l.advance
      else (acc, l)
    | none => (acc, l)

/-- The keyword check at the end of Lexer.lex_identifier. -/
def keywordOrIdentifier (s : String) : Token :=
  if s = "roles" then .roles
  else if s = "state" then .state
  else if s = "sequence" then .sequence
  else if s = "group" then .group
  else .identifier s

/-- Lexer.lex_identifier. The source wraps the result in `Ok` but can never
fail, so the error channel is dropped here. -/
def Lexer.lexIdentifier (l : Lexer) : Token × Lexer :=
  let p := lexIdentifierGo (l.input.length - l.position) [] l
  (keywordOrIdentifier (String.mk p.1), p.2)

/-- Lexer.next_token. -/
def Lexer.nextToken (l : Lexer) : Except LexError (PositionedToken × Lexer) :=
  let l1 := l.skipWsComments
  let position := l1.currentPosition
  match l1.peek with
  | none => .ok (⟨.eof, position⟩, l1)
  | some ch =>
    if ch = '\x7b' then .ok (⟨.leftBrace, position⟩, l1.advance)
    else if ch = '\x7d' then .ok (⟨.rightBrace, position⟩, l1.advance)
    else if ch = '[' then .ok (⟨.leftBracket, position⟩, l1.advance)
    else if ch = ']' then .ok (⟨.rightBracket, position⟩, l1.advance)
    else if ch = ':' then .ok (⟨.colon, position⟩, l1.advance)
    else if ch = ',' then .ok (⟨.comma, position⟩, l1.advance)
    else if ch = '-' then
      let l2 := l1.advance
      if l2.peek = some '>' then .ok (⟨.arrow, position⟩, l2.advance)
      else .error ⟨"Expected '>' after '-', got " ++ optCharDebug l2.peek, position⟩
    else if rustIsAlphabetic ch || ch = '_' then
      let p := l1.lexIdentifier
      .ok (⟨p.1, position⟩, p.2)
    else
      .error ⟨"Unexpected character: '" ++ String.singleton ch ++ "'", position⟩

/-- Loop body of Lexer.tokenize: push each token, stopping after end of
input. The `Nat` bound exceeds the number of tokens that can still be
produced, so its zero case is unreachable from `Lexer.tokenize`. -/
def tokenizeGo : Nat → Lexer → Except LexError (List PositionedToken)
  | 0, _ => .error ⟨"unreachable: token bound exhausted", ⟨0, 0⟩⟩
  | n + 1, l =>
    match l.nextToken with
    | .error e => .error e
    | .ok (pt, l') =>
      if pt.token = Token.eof then .ok [pt]
      else
        match tokenizeGo n l' with
        | .error e => .error e
        | .ok ts => .ok (pt :: ts)

/-- Lexer.tokenize. -/
def Lexer.tokenize (l : Lexer) : Except LexError (List PositionedToken) :=
  tokenizeGo (l.input.length - l.position + 1) l

/-- A roles declaration (ast.rs `RolesDecl`). -/
structure RolesDecl where
  roles : List String
deriving DecidableEq

/-- A state declaration (ast.rs `State`); `allowedRoles = none` means every
role is valid. -/
structure State where
  name : String
  allowedRoles : Option (List String)
deriving DecidableEq

/-- A state reference with a role (ast.rs `StateRef`). -/
structure StateRef where
  state : String
  role : String
deriving DecidableEq

/-- A single step within a sequence (ast.rs `SequenceStep`); `fromRef` and
`toRef` model the source fields `from` and `to`. -/
structure SequenceStep where
  actionName : String
  fromRef : StateRef
  toRef : StateRef
deriving DecidableEq

/-- A sequence declaration (ast.rs `Sequence`). -/
structure Sequence where
  name : String
  steps : List SequenceStep
deriving DecidableEq

/-- A group declaration (ast.rs `GroupDecl`). -/
structure GroupDecl where
  name : String
  states : List String
deriving DecidableEq

/-- A top-level declaration (ast.rs `Declaration`). -/
inductive Declaration where
  | roles (d : RolesDecl)
  | state (s : State)
  | sequence (s : Sequence)
  | group (g : GroupDecl)
deriving DecidableEq

/-- A parsed martial file (ast.rs `MartialFile`). -/
structure MartialFile where
  declarations : List Declaration
deriving DecidableEq

/-- Parser error (parser.rs `ParseError`). -/
structure ParseError where
  message : String
  position : Position
deriving DecidableEq

/-- Parser state (parser.rs `Parser`). -/
structure Parser where
  tokens : List PositionedToken
  position : Nat
deriving DecidableEq

/-- Parser.new. -/
def Parser.new (tokens : List PositionedToken) : Parser :=
  ⟨tokens, 0⟩

/-- Parser.current_position. -/
def Parser.currentPosition (p : Parser) : Position :=
  match p.tokens[p.position]? with
  | some pt => pt.position
  | none =>
    match p.tokens.getLast? with
    | some pt => pt.position
    | none => ⟨1, 1⟩

/-- Parser.peek. -/
def Parser.peekTok (p : Parser) : Token :=
  match p.tokens[p.position]? with
  | some pt => pt.token
  | none => .eof

/-- Parser.advance: consume the current token. The source also returns the
token; all callers use `peek` for the value, so only the state update is
modelled. -/
def Parser.advance (p : Parser) : Parser :=
  if p.position < p.tokens.length then { p with position := p.position + 1 } else p

/-- Parser.expect. -/
def Parser.expect (p : Parser) (expected : Token) : Except ParseError Parser :=
  let current := p.peekTok
  if current = expected then .ok p.advance
  else .error ⟨"Expected " ++ tokenDisplay expected ++ ", got " ++ tokenDisplay current,
    p.currentPosition⟩

/-- Parser.expect_identifier. -/
def Parser.expectIdentifier (p : Parser) : Except ParseError (String × Parser) :=
  match p.peekTok with
  | .identifier name => .ok (name, p.advance)
  | other => .error ⟨"Expected identifier, got " ++ tokenDisplay other, p.currentPosition⟩

/-- The `while peek == Comma` identifier-list loop shared verbatim by
parse_roles_decl and parse_state_decl in the source. -/
def parseIdentListGo : Nat → List String → Parser → Except ParseError (List String × Parser)
  | 0, acc, p => .ok (acc, p)
  | n + 1, acc, p =>
    if p.peekTok = Token.comma then do
      let p1 := p.advance
      let (name, p2) ← p1.expectIdentifier
      parseIdentListGo n (acc ++ [name]) p2
    else .ok (acc, p)

/-- Parser.parse_roles_decl. -/
def Parser.parseRolesDecl (p : Parser) : Except ParseError (RolesDecl × Parser) := do
  let p ← p.expect .roles
  let p ← p.expect .leftBrace
  let (first, p) ← p.expectIdentifier
  let (roles, p) ← parseIdentListGo (p.tokens.length - p.position + 1) [first] p
  let p ← p.expect .rightBrace
  .ok (⟨roles⟩, p)

/-- Parser.parse_state_decl. -/
def Parser.parseStateDecl (p : Parser) : Except ParseError (State × Parser) := do
  let p ← p.expect .state
  let (name, p) ← p.expectIdentifier
  if p.peekTok = Token.roles then do
    let p1 := p.advance
    let p2 ← p1.expect .leftBrace
    let (first, p3) ← p2.expectIdentifier
    let (roles, p4) ← parseIdentListGo (p3.tokens.length - p3.position + 1) [first] p3
    let p5 ← p4.expect .rightBrace
    .ok (⟨name, some roles⟩, p5)
  else
    .ok (⟨name, none⟩, p)

/-- Parser.parse_state_ref. -/
def Parser.parseStateRef (p : Parser) : Except ParseError (StateRef × Parser) := do
  let (state, p) ← p.expectIdentifier
  let p ← p.expect .leftBracket
  let (role, p) ← p.expectIdentifier
  let p ← p.expect .rightBracket
  .ok (⟨state, role⟩, p)

/-- Parser.parse_sequence_step. -/
def Parser.parseSequenceStep (p : Parser) : Except ParseError (SequenceStep × Parser) := do
  let (actionName, p) ← p.expectIdentifier
  let p ← p.expect .colon
  let (fromRef, p) ← p.parseStateRef
  let p ← p.expect .arrow
  let (toRef, p) ← p.parseStateRef
  .ok (⟨actionName, fromRef, toRef⟩, p)

/-- The `while peek is an identifier` additional-steps loop of
parse_sequence_decl. -/
def parseStepsGo : Nat → List SequenceStep → Parser → Except ParseError (List SequenceStep × Parser)
  | 0, acc, p => .ok (acc, p)
  | n + 1, acc, p =>
    match p.peekTok with
    | .identifier _ => do
      let (step, p') ← p.parseSequenceStep
      parseStepsGo n (acc ++ [step]) p'
    | _ => .ok (acc, p)

/-- Parser.parse_sequence_decl. -/
def Parser.parseSequenceDecl (p : Parser) : Except ParseError (Sequence × Parser) := do
  let p ← p.expect .sequence
  let (name, p) ← p.expectIdentifier
  let p ← p.expect .colon
  let (first, p) ← p.parseSequenceStep
  let (steps, p) ← parseStepsGo (p.tokens.length - p.position + 1) [first] p
  .ok (⟨name, steps⟩, p)

/-- Parser.parse_declaration. The source matches only the `roles`, `state`
and `sequence` keywords; every other token, the `group` keyword included,
falls through to the error arm. -/
def Parser.parseDeclaration (p : Parser) : Except ParseError (Declaration × Parser) :=
  match p.peekTok with
  | .roles => do
    let (d, p') ← p.parseRolesDecl
    .ok (.roles d, p')
  | .state => do
    let (d, p') ← p.parseStateDecl
    .ok (.state d, p')
  | .sequence => do
    let (d, p') ← p.parseSequenceDecl
    .ok (.sequence d, p')
  | other =>
    .error ⟨"Expected declaration (roles, state, or sequence), got " ++ tokenDisplay other,
      p.currentPosition⟩

/-- The `while peek != Eof` loop of Parser.parse. -/
def parseGo : Nat → List Declaration → Parser → Except ParseError MartialFile
  | 0, _, _ => .error ⟨"unreachable: declaration bound exhausted", ⟨0, 0⟩⟩
  | n + 1, acc, p =>
    if p.peekTok = Token.eof then .ok ⟨acc⟩
    else do
      let (d, p') ← p.parseDeclaration
      parseGo n (acc ++ [d]) p'

/-- Parser.parse. -/
def Parser.parse (p : Parser) : Except ParseError MartialFile :=
  parseGo (p.tokens.length - p.position + 1) [] p

/-- Semantic validation error (semantic.rs `SemanticError`). -/
structure SemanticError where
  message : String
  context : String
deriving DecidableEq

/-- A validated martial system (semantic.rs `MartialSystem`). -/
structure MartialSystem where
  name : String
  roles : List String
  states : List (String × State)
  sequences : List (String × Sequence)
  groups : List (String × List String)
deriving DecidableEq

/-- Semantic validator accumulator (semantic.rs `SemanticValidator`). -/
structure SemanticValidator where
  roles : List String
  states : List (String × State)
  sequences : List (String × Sequence)
  groups : List (String × List String)
deriving DecidableEq

/-- SemanticValidator.new. -/
def SemanticValidator.new : SemanticValidator :=
  ⟨[], [], [], []⟩

/-- HashSet insert: a no-op when the element is already present. -/
def hsInsert (s : List String) (x : String) : List String :=
  if x ∈ s then s else s ++ [x]

/-- HashMap contains_key on the association-list model. -/
def mapContains {α : Type} (m : List (String × α)) (k : String) : Bool :=
  (m.lookup k).isSome

/-- HashMap get on the association-list model. -/
def mapGet {α : Type} (m : List (String × α)) (k : String) : Option α :=
  m.lookup k

/-- HashMap insert on the association-list model; the source inserts only
after `contains_key` returned false, keeping keys unique. -/
def mapInsert {α : Type} (m : List (String × α)) (k : String) (v : α) : List (String × α) :=
  m ++ [(k, v)]

/-- HashMap keys on the association-list model. -/
def mapKeys {α : Type} (m : List (String × α)) : List String :=
  m.map (·.1)

/-- The `.collect::<Vec<_>>().join(", ")` of the source's error messages. -/
def joinComma (names : List String) : String :=
  String.intercalate ", " names

/-- Loop body of SemanticValidator.add_roles: insert every role name,
stopping with an error at an empty name. Inserts made before the error are
kept, as in the source. -/
def SemanticValidator.addRolesGo (v : SemanticValidator) :
    List String → SemanticValidator × Option SemanticError
  | [] => (v, none)
  | role :: rest =>
    if role = "" then
      (v, some ⟨"Role name cannot be empty", "roles declaration"⟩)
    else
      SemanticValidator.addRolesGo { v with roles := hsInsert v.roles role } rest

/-- SemanticValidator.add_roles. -/
def SemanticValidator.addRoles (v : SemanticValidator) (rolesDecl : RolesDecl) :
    SemanticValidator × Option SemanticError :=
  v.addRolesGo rolesDecl.roles

/-- SemanticValidator.add_state. -/
def SemanticValidator.addState (v : SemanticValidator) (state : State) :
    SemanticValidator × Option SemanticError :=
  if state.name = "" then
    (v, some ⟨"State name cannot be empty", "state declaration"⟩)
  else if mapContains v.states state.name then
    (v, some ⟨"State '" ++ state.name ++ "' is already defined", "state " ++ state.name⟩)
  else
    ({ v with states := mapInsert v.states state.name state }, none)

/-- SemanticValidator.add_sequence. -/
def SemanticValidator.addSequence (v : SemanticValidator) (sequence : Sequence) :
    SemanticValidator × Option SemanticError :=
  if sequence.name = "" then
    (v, some ⟨"Sequence name cannot be empty", "sequence declaration"⟩)
  else if mapContains v.sequences sequence.name then
    (v, some ⟨"Sequence '" ++ sequence.name ++ "' is already defined",
      "sequence " ++ sequence.name⟩)
  else
    ({ v with sequences := mapInsert v.sequences sequence.name sequence }, none)

/-- SemanticValidator.add_group. -/
def SemanticValidator.addGroup (v : SemanticValidator) (group : GroupDecl) :
    SemanticValidator × Option SemanticError :=
  if group.name = "" then
    (v, some ⟨"Group name cannot be empty", "group declaration"⟩)
  else if mapContains v.groups group.name then
    (v, some ⟨"Group '" ++ group.name ++ "' is already defined", "group " ++ group.name⟩)
  else
    ({ v with groups := mapInsert v.groups group.name group.states }, none)

/-- The per-declaration dispatch inside SemanticValidator.add_file. -/
def SemanticValidator.addDeclaration (v : SemanticValidator) :
    Declaration → SemanticValidator × Option SemanticError
  | .roles d => v.addRoles d
  | .state s => v.addState s
  | .sequence s => v.addSequence s
  | .group g => v.addGroup g

/-- Loop body of SemanticValidator.add_file: process declarations in order,
stopping at the first error while keeping the effects made so far. -/
def SemanticValidator.addFileGo (v : SemanticValidator) :
    List Declaration → SemanticValidator × Option SemanticError
  | [] => (v, none)
  | d :: rest =>
    match v.addDeclaration d with
    | (v', none) => v'.addFileGo rest
    | (v', some e) => (v', some e)

/-- SemanticValidator.add_file. -/
def SemanticValidator.addFile (v : SemanticValidator) (file : MartialFile) :
    SemanticValidator × Option SemanticError :=
  v.addFileGo file.declarations

/-- The existence check over a state's restriction list in
SemanticValidator.validate_states. -/
def checkRolesExist (v : SemanticValidator) (stateName : String) :
    List String → Option SemanticError
  | [] => none
  | role :: rest =>
    if role ∈ v.roles then checkRolesExist v stateName rest
    else some ⟨"Role '" ++ role ++ "' is not defined. Available roles: " ++ joinComma v.roles,
      "state " ++ stateName⟩

/-- The duplicate check over a state's restriction list in
SemanticValidator.validate_states (the source's `seen` HashSet). -/
def checkDupRoles (stateName : String) (seen : List String) :
    List String → Option SemanticError
  | [] => none
  | role :: rest =>
    if role ∈ seen then
      some ⟨"Role '" ++ role ++ "' appears multiple times", "state " ++ stateName⟩
    else checkDupRoles stateName (seen ++ [role]) rest

/-- Loop body of SemanticValidator.validate_states over the state map. -/
def validateStatesGo (v : SemanticValidator) :
    List (String × State) → Except SemanticError Unit
  | [] => .ok ()
  | (stateName, state) :: rest =>
    match state.allowedRoles with
    | some allowedRoles =>
      match checkRolesExist v stateName allowedRoles with
      | some e => .error e
      | none =>
        match checkDupRoles stateName [] allowedRoles with
        | some e => .error e
        | none => validateStatesGo v rest
    | none => validateStatesGo v rest

/-- SemanticValidator.validate_states. -/
def SemanticValidator.validateStates (v : SemanticValidator) : Except SemanticError Unit :=
  validateStatesGo v v.states

/-- The member check over a group's state list in
SemanticValidator.validate_groups. -/
def checkGroupStates (v : SemanticValidator) (groupName : String) :
    List String → Option SemanticError
  | [] => none
  | stateName :: rest =>
    if mapContains v.states stateName then checkGroupStates v groupName rest
    else some ⟨"State '" ++ stateName ++ "' is not defined. Available states: " ++
      joinComma (mapKeys v.states), "group " ++ groupName⟩

/-- Loop body of SemanticValidator.validate_groups over the group map. -/
def validateGroupsGo (v : SemanticValidator) :
    List (String × List String) → Except SemanticError Unit
  | [] => .ok ()
  | (groupName, states) :: rest =>
    if states.isEmpty then
      .error ⟨"Group must contain at least one state", "group " ++ groupName⟩
    else
      match checkGroupStates v groupName states with
      | some e => .error e
      | none => validateGroupsGo v rest

/-- SemanticValidator.validate_groups. -/
def SemanticValidator.validateGroups (v : SemanticValidator) : Except SemanticError Unit :=
  validateGroupsGo v v.groups

/-- SemanticValidator.validate_state_ref. -/
def SemanticValidator.validateStateRef (v : SemanticValidator) (stateRef : StateRef)
    (context : String) : Except SemanticError Unit :=
  match mapGet v.states stateRef.state with
  | none =>
    .error ⟨"State '" ++ stateRef.state ++ "' is not defined. Available states: " ++
      joinComma (mapKeys v.states), context⟩
  | some state =>
    if stateRef.role ∈ v.roles then
      match state.allowedRoles with
      | some allowedRoles =>
        if stateRef.role ∈ allowedRoles then .ok ()
        else
          .error ⟨"Role '" ++ stateRef.role ++ "' is not allowed for state '" ++
            stateRef.state ++ "'. Allowed roles: " ++ joinComma allowedRoles, context⟩
      | none => .ok ()
    else
      .error ⟨"Role '" ++ stateRef.role ++ "' is not defined. Available roles: " ++
        joinComma v.roles, context⟩

/-- The source's step context string `sequence {} step {} ({})`, taking the
zero-based step index `i` and printing `i + 1`. -/
def stepContext (seqName : String) (i : Nat) (actionName : String) : String :=
  "sequence " ++ seqName ++ " step " ++ toString (i + 1) ++ " (" ++ actionName ++ ")"

/-- The source's broken-chain error message, naming the previous step's `to`
endpoint and the current step's `from` endpoint. -/
def brokenChainMsg (prevStep step : SequenceStep) : String :=
  "Step chain is broken: previous step ends at " ++ prevStep.toRef.state ++ "[" ++
    prevStep.toRef.role ++ "], but this step starts at " ++ step.fromRef.state ++ "[" ++
    step.fromRef.role ++ "]"

/-- The indexed per-step loop of SemanticValidator.validate_sequences;
`prev` is `steps[i - 1]` when `i > 0` and `none` when `i = 0`. -/
def validateStepsGo (v : SemanticValidator) (seqName : String) :
    Nat → Option SequenceStep → List SequenceStep → Except SemanticError Unit
  | _, _, [] => .ok ()
  | i, prev, step :: rest =>
    let ctx := stepContext seqName i step.actionName
    match v.validateStateRef step.fromRef ctx with
    | .error e => .error e
    | .ok _ =>
      match v.validateStateRef step.toRef ctx with
      | .error e => .error e
      | .ok _ =>
        match prev with
        | some prevStep =>
          if prevStep.toRef.state ≠ step.fromRef.state ∨ prevStep.toRef.role ≠ step.fromRef.role
          then .error ⟨brokenChainMsg prevStep step, ctx⟩
          else validateStepsGo v seqName (i + 1) (some step) rest
        | none => validateStepsGo v seqName (i + 1) (some step) rest

/-- The per-sequence body of SemanticValidator.validate_sequences: the
emptiness check followed by the per-step loop. -/
def validateSequenceSteps (v : SemanticValidator) (seqName : String) (sequence : Sequence) :
    Except SemanticError Unit :=
  if sequence.steps.isEmpty then
    .error ⟨"Sequence must have at least one step", "sequence " ++ seqName⟩
  else validateStepsGo v seqName 0 none sequence.steps

/-- Loop body of SemanticValidator.validate_sequences over the sequence map. -/
def validateSequencesGo (v : SemanticValidator) :
    List (String × Sequence) → Except SemanticError Unit
  | [] => .ok ()
  | (seqName, sequence) :: rest =>
    match validateSequenceSteps v seqName sequence with
    | .error e => .error e
    | .ok _ => validateSequencesGo v rest

/-- SemanticValidator.validate_sequences. -/
def SemanticValidator.validateSequences (v : SemanticValidator) : Except SemanticError Unit :=
  validateSequencesGo v v.sequences

/-- SemanticValidator.validate: the roles emptiness check, then states,
sequences and groups in order, then the packaged system. -/
def SemanticValidator.validate (v : SemanticValidator) (systemName : String) :
    Except SemanticError MartialSystem :=
  if v.roles.isEmpty then
    .error ⟨"No roles defined. At least one role declaration is required.", systemName⟩
  else
    match v.validateStates with
    | .error e => .error e
    | .ok _ =>
      match v.validateSequences with
      | .error e => .error e
      | .ok _ =>
        match v.validateGroups with
        | .error e => .error e
        | .ok _ => .ok ⟨systemName, v.roles, v.states, v.sequences, v.groups⟩

/-- The chain-continuity relation between consecutive steps: the later step's
`from` endpoint equals the earlier step's `to` endpoint in both state name
and role name. -/
def chainLink (a b : SequenceStep) : Prop :=
  b.fromRef.state = a.toRef.state ∧ b.fromRef.role = a.toRef.role

instance (a b : SequenceStep) : Decidable (chainLink a b) := by
  unfold chainLink
  infer_instance

/-- Acceptance of a state reference by validate_state_ref; success does not
depend on the context argument, so it is stated at the empty context. -/
def refAccepted (v : SemanticValidator) (r : StateRef) : Prop :=
  v.validateStateRef r "" = .ok ()

instance (v : SemanticValidator) (r : StateRef) : Decidable (refAccepted v r) := by
  unfold refAccepted
  infer_instance

/-- Concrete validator for exercising the chain-continuity theorem. -/
def vC2 : SemanticValidator :=
  ⟨["r1", "r2", "r3"],
    [("A", ⟨"A", none⟩), ("B", ⟨"B", none⟩), ("C", ⟨"C", none⟩)], [], []⟩

/-- Concrete two-step sequence `A[r1] -> B[r2] -> C[r3]` with matching links. -/
def seqC2 : Sequence :=
  ⟨"Flow", [⟨"Move1", ⟨"A", "r1"⟩, ⟨"B", "r2"⟩⟩, ⟨"Move2", ⟨"B", "r2"⟩, ⟨"C", "r3"⟩⟩]⟩

/-- Concrete validator with a closed-restriction state `Mount roles
{Top, Bottom}` and declared roles `Top`, `Bottom`, `Neutral`. -/
def vC3 : SemanticValidator :=
  ⟨["Top", "Bottom", "Neutral"], [("Mount", ⟨"Mount", some ["Top", "Bottom"]⟩)], [], []⟩

/-- Concrete validator holding one state, one sequence and one group, for the
duplicate-name theorem. -/
def vC5 : SemanticValidator :=
  ⟨["Top"], [("Mount", ⟨"Mount", none⟩)],
    [("Esc", ⟨"Esc", [⟨"Move", ⟨"Mount", "Top"⟩, ⟨"Mount", "Top"⟩⟩]⟩)],
    [("Guards", ["Mount"])]⟩

/-- Concrete validator with accumulated states and sequences but no roles. -/
def vC6 : SemanticValidator :=
  ⟨[], [("Mount", ⟨"Mount", none⟩)],
    [("Esc", ⟨"Esc", [⟨"Move", ⟨"Mount", "Top"⟩, ⟨"Mount", "Top"⟩⟩]⟩)], []⟩

/-- The token list produced by lexing the one-identifier input `a`. -/
def tsC7 : List PositionedToken :=
  [⟨.identifier "a", ⟨1, 1⟩⟩, ⟨.eof, ⟨1, 2⟩⟩]

/-- C1: the spec's grammar admits `group ID { ID ("," ID)* }` as a
declaration, and the whole surrounding pipeline (lexer keyword, AST node,
semantic ingest) supports groups, but `Parser::parse_declaration` matches
only `roles`, `state` and `sequence` and therefore rejects every token
sequence that begins with the `group` keyword. At the tokens of
`group GuardFamily { ClosedGuard, OpenGuard }` the parse operation returns
the declaration error instead of a group declaration. -/
theorem c1_group_declaration_rejected :
    Parser.parse (Parser.new
      [⟨.group, ⟨1, 1⟩⟩, ⟨.identifier "GuardFamily", ⟨1, 7⟩⟩, ⟨.leftBrace, ⟨1, 19⟩⟩,
        ⟨.identifier "ClosedGuard", ⟨1, 21⟩⟩, ⟨.comma, ⟨1, 32⟩⟩,
        ⟨.identifier "OpenGuard", ⟨1, 34⟩⟩, ⟨.rightBrace, ⟨1, 44⟩⟩, ⟨.eof, ⟨1, 45⟩⟩]) =
      .error ⟨"Expected declaration (roles, state, or sequence), got group", ⟨1, 1⟩⟩ := by
  decide

/-- C3: at validate time, a step endpoint whose state exists and whose role
is a declared role is accepted when the state has no restriction list; with
a restriction list it is accepted exactly when the role is a member, and
otherwise rejected with the error that lists the allowed roles, even though
the role is declared. -/
theorem c3_state_role_restriction (v : SemanticValidator) (r : StateRef) (st : State)
    (ctx : String) (hstate : mapGet v.states r.state = some st)
    (hrole : r.role ∈ v.roles) :
    (st.allowedRoles = none → v.validateStateRef r ctx = .ok ())
    ∧ (∀ allowed, st.allowedRoles = some allowed →
        (r.role ∈ allowed → v.validateStateRef r ctx = .ok ())
        ∧ (r.role ∉ allowed → v.validateStateRef r ctx =
            .error ⟨"Role '" ++ r.role ++ "' is not allowed for state '" ++ r.state ++
              "'. Allowed roles: " ++ joinComma allowed, ctx⟩)) := by
  refine ⟨fun hnone => ?_, fun allowed hsome => ⟨fun hmem => ?_, fun hnot => ?_⟩⟩
  · simp [SemanticValidator.validateStateRef, hstate, hrole, hnone]
  · simp [SemanticValidator.validateStateRef, hstate, hrole, hsome, hmem]
  · simp [SemanticValidator.validateStateRef, hstate, hrole, hsome, hnot]

/-- Witness for C3 at a concrete input: state `Mount` restricted to
`{Top, Bottom}` rejects the declared role `Neutral` with the allowed-roles
error, and accepts `Top`. -/
theorem c3_state_role_restriction_witness :
    vC3.validateStateRef ⟨"Mount", "Neutral"⟩ "step" =
      .error ⟨"Role 'Neutral' is not allowed for state 'Mount'. Allowed roles: Top, Bottom",
        "step"⟩
    ∧ vC3.validateStateRef ⟨"Mount", "Top"⟩ "step" = .ok () := by
  refine ⟨?_, ?_⟩
  · exact ((c3_state_role_restriction vC3 ⟨"Mount", "Neutral"⟩ ⟨"Mount", some ["Top", "Bottom"]⟩
      "step" (by decide) (by decide)).2 ["Top", "Bottom"] rfl).2 (by decide)
  · exact ((c3_state_role_restriction vC3 ⟨"Mount", "Top"⟩ ⟨"Mount", some ["Top", "Bottom"]⟩
      "step" (by decide) (by decide)).2 ["Top", "Bottom"] rfl).1 (by decide)

/-- C5: ingesting a state, sequence or group declaration whose name is
already a key of the same kind's accumulated map fails with the
"already defined" error for that kind, and leaves the accumulator unchanged,
so the first occurrence stays. The accumulator is arbitrary, so any number
of other declarations may have been ingested in between. -/
theorem c5_duplicate_name_rejected (v : SemanticValidator) (st : State) (sq : Sequence)
    (g : GroupDecl)
    (hstc : mapContains v.states st.name = true) (hstn : st.name ≠ "")
    (hsqc : mapContains v.sequences sq.name = true) (hsqn : sq.name ≠ "")
    (hgc : mapContains v.groups g.name = true) (hgn : g.name ≠ "") :
    v.addState st =
      (v, some ⟨"State '" ++ st.name ++ "' is already defined", "state " ++ st.name⟩)
    ∧ v.addSequence sq =
      (v, some ⟨"Sequence '" ++ sq.name ++ "' is already defined", "sequence " ++ sq.name⟩)
    ∧ v.addGroup g =
      (v, some ⟨"Group '" ++ g.name ++ "' is already defined", "group " ++ g.name⟩) := by
  refine ⟨?_, ?_, ?_⟩
  · simp [SemanticValidator.addState, hstc, hstn]
  · simp [SemanticValidator.addSequence, hsqc, hsqn]
  · simp [SemanticValidator.addGroup, hgc, hgn]

/-- Witness for C5 at a concrete accumulator holding `Mount`, `Esc` and
`Guards`: duplicates of each kind are rejected and the accumulator is
returned unchanged. -/
theorem c5_duplicate_name_rejected_witness :
    vC5.addState ⟨"Mount", some ["Top"]⟩ =
      (vC5, some ⟨"State 'Mount' is already defined", "state Mount"⟩)
    ∧ vC5.addSequence ⟨"Esc", []⟩ =
      (vC5, some ⟨"Sequence 'Esc' is already defined", "sequence Esc"⟩)
    ∧ vC5.addGroup ⟨"Guards", ["Other"]⟩ =
      (vC5, some ⟨"Group 'Guards' is already defined", "group Guards"⟩) :=
  c5_duplicate_name_rejected vC5 ⟨"Mount", some ["Top"]⟩ ⟨"Esc", []⟩ ⟨"Guards", ["Other"]⟩
    (by decide) (by decide) (by decide) (by decide) (by decide) (by decide)

/-- C6: finalizing an accumulator whose merged role set is empty fails with
the no-roles error carrying the supplied system name as context, whatever
states, sequences and groups were accumulated — in particular before any of
the states, sequences or groups checks can report anything. -/
theorem c6_empty_roles_fails (v : SemanticValidator) (systemName : String)
    (h : v.roles = []) :
    v.validate systemName =
      .error ⟨"No roles defined. At least one role declaration is required.", systemName⟩ := by
  simp [SemanticValidator.validate, h]

/-- Witness for C6: an accumulator holding a state and a sequence, one whose
sequence would itself fail the role check, still reports the no-roles error
with the system name as context. -/
theorem c6_empty_roles_fails_witness :
    vC6.validate "bjj" =
      .error ⟨"No roles defined. At least one role declaration is required.", "bjj"⟩ :=
  c6_empty_roles_fails vC6 "bjj" rfl

theorem hsInsert_toFinset (s : List String) (x : String) :
    (hsInsert s x).toFinset = insert x s.toFinset := by
  by_cases h : x ∈ s
  · rw [hsInsert, if_pos h]
    exact (Finset.insert_eq_self.mpr (List.mem_toFinset.mpr h)).symm
  · rw [hsInsert, if_neg h]
    ext y
    simp only [List.mem_toFinset, List.mem_append, List.mem_singleton, Finset.mem_insert]
    tauto

theorem addRolesGo_ok (v : SemanticValidator) (rs : List String)
    (h : ∀ r ∈ rs, r ≠ "") :
    (v.addRolesGo rs).2 = none ∧
    (v.addRolesGo rs).1.roles.toFinset = v.roles.toFinset ∪ rs.toFinset ∧
    (v.addRolesGo rs).1.states = v.states ∧
    (v.addRolesGo rs).1.sequences = v.sequences ∧
    (v.addRolesGo rs).1.groups = v.groups := by
  induction rs generalizing v with
  | nil => simp [SemanticValidator.addRolesGo]
  | cons r rest ih =>
    have hr : r ≠ "" := h r (List.mem_cons_self _ _)
    have hrest : ∀ x ∈ rest, x ≠ "" := fun x hx => h x (List.mem_cons_of_mem _ hx)
    obtain ⟨e1, u1, s1, q1, g1⟩ := ih { v with roles := hsInsert v.roles r } hrest
    simp only [SemanticValidator.addRolesGo, if_neg hr]
    refine ⟨e1, ?_, s1, q1, g1⟩
    rw [u1, List.toFinset_cons]
    show (hsInsert v.roles r).toFinset ∪ rest.toFinset =
      v.roles.toFinset ∪ insert r rest.toFinset
    rw [hsInsert_toFinset, Finset.insert_union, Finset.union_insert]

/-- C4: ingesting roles declarations with nonempty names always succeeds,
the resulting merged role set is the set union of the accumulator's roles
with all the ingested names, the same set results in either ingestion
order, and ingesting the two declarations inside a single unit through
add_file produces the same union. -/
theorem c4_role_merge_union (v : SemanticValidator) (d1 d2 : RolesDecl)
    (h : ∀ r ∈ d1.roles ++ d2.roles, r ≠ "") :
    ((v.addRoles d1).2 = none ∧ ((v.addRoles d1).1.addRoles d2).2 = none)
    ∧ ((v.addRoles d1).1.addRoles d2).1.roles.toFinset =
      v.roles.toFinset ∪ d1.roles.toFinset ∪ d2.roles.toFinset
    ∧ ((v.addRoles d2).1.addRoles d1).1.roles.toFinset =
      ((v.addRoles d1).1.addRoles d2).1.roles.toFinset
    ∧ (v.addFileGo [.roles d1, .roles d2]).1.roles.toFinset =
      v.roles.toFinset ∪ d1.roles.toFinset ∪ d2.roles.toFinset := by
  have h1 : ∀ r ∈ d1.roles, r ≠ "" := fun r hr => h r (List.mem_append_left _ hr)
  have h2 : ∀ r ∈ d2.roles, r ≠ "" := fun r hr => h r (List.mem_append_right _ hr)
  obtain ⟨e1, u1, -, -, -⟩ := addRolesGo_ok v d1.roles h1
  obtain ⟨e2, u2, -, -, -⟩ := addRolesGo_ok (v.addRolesGo d1.roles).1 d2.roles h2
  obtain ⟨e1r, u1r, -, -, -⟩ := addRolesGo_ok v d2.roles h2
  obtain ⟨e2r, u2r, -, -, -⟩ := addRolesGo_ok (v.addRolesGo d2.roles).1 d1.roles h1
  have hu12 : ((v.addRoles d1).1.addRoles d2).1.roles.toFinset =
      v.roles.toFinset ∪ d1.roles.toFinset ∪ d2.roles.toFinset := by
    show ((v.addRolesGo d1.roles).1.addRolesGo d2.roles).1.roles.toFinset = _
    rw [u2, u1]
  have hu21 : ((v.addRoles d2).1.addRoles d1).1.roles.toFinset =
      v.roles.toFinset ∪ d2.roles.toFinset ∪ d1.roles.toFinset := by
    show ((v.addRolesGo d2.roles).1.addRolesGo d1.roles).1.roles.toFinset = _
    rw [u2r, u1r]
  refine ⟨⟨e1, e2⟩, hu12, ?_, ?_⟩
  · rw [hu21, hu12, Finset.union_assoc, Finset.union_assoc,
      Finset.union_comm d2.roles.toFinset]
  · have hpair1 : v.addDeclaration (.roles d1) = ((v.addRoles d1).1, none) := by
      show v.addRoles d1 = _
      rw [← e1]
      rfl
    have hpair2 : (v.addRoles d1).1.addDeclaration (.roles d2) =
        (((v.addRoles d1).1.addRoles d2).1, none) := by
      show (v.addRoles d1).1.addRoles d2 = _
      rw [← e2]
      rfl
    simp only [SemanticValidator.addFileGo, hpair1, hpair2]
    exact hu12

/-- Witness for C4 at the spec's example: `{A, B}` then `{B, C}` merges to
the role set `{A, B, C}` in both orders and through a single unit. -/
theorem c4_role_merge_union_witness :
    ((SemanticValidator.new.addRoles ⟨["A", "B"]⟩).1.addRoles ⟨["B", "C"]⟩).1.roles.toFinset =
      SemanticValidator.new.roles.toFinset ∪ (["A", "B"] : List String).toFinset ∪
        (["B", "C"] : List String).toFinset
    ∧ ((SemanticValidator.new.addRoles ⟨["B", "C"]⟩).1.addRoles ⟨["A", "B"]⟩).1.roles.toFinset =
      ((SemanticValidator.new.addRoles ⟨["A", "B"]⟩).1.addRoles ⟨["B", "C"]⟩).1.roles.toFinset :=
  ⟨(c4_role_merge_union SemanticValidator.new ⟨["A", "B"]⟩ ⟨["B", "C"]⟩ (by decide)).2.1,
    (c4_role_merge_union SemanticValidator.new ⟨["A", "B"]⟩ ⟨["B", "C"]⟩ (by decide)).2.2.1⟩

theorem addFileGo_append (v : SemanticValidator) (ds1 ds2 : List Declaration) :
    v.addFileGo (ds1 ++ ds2) =
      match v.addFileGo ds1 with
      | (v', none) => v'.addFileGo ds2
      | (v', some e) => (v', some e) := by
  induction ds1 generalizing v with
  | nil => simp [SemanticValidator.addFileGo]
  | cons d rest ih =>
    simp only [List.cons_append, SemanticValidator.addFileGo]
    rcases hd : v.addDeclaration d with ⟨v', oe⟩
    cases oe with
    | none => exact ih v'
    | some e => rfl

theorem addRolesGo_partial (w : SemanticValidator) (rs1 rs2 : List String)
    (hne : ∀ r ∈ rs1, r ≠ "") :
    w.addRolesGo (rs1 ++ "" :: rs2) =
      (rs1.foldl (fun acc r => { acc with roles := hsInsert acc.roles r }) w,
        some ⟨"Role name cannot be empty", "roles declaration"⟩) := by
  induction rs1 generalizing w with
  | nil => simp [SemanticValidator.addRolesGo]
  | cons r rest ih =>
    have hr : r ≠ "" := hne r (List.mem_cons_self _ _)
    simp only [List.cons_append, SemanticValidator.addRolesGo, if_neg hr, List.foldl_cons]
    exact ih _ (fun x hx => hne x (List.mem_cons_of_mem _ hx))

/-- C10: ingest is not atomic. If the declarations of a unit split as a
prefix that merges cleanly, then a declaration that errors, then a
remainder, add_file returns exactly the accumulator reached after the
prefix plus the failing declaration's own partial effects, with that error:
the prefix stays merged and the remainder is never processed. Moreover a
roles declaration that reaches an empty name keeps every insert made before
it. -/
theorem c10_add_file_not_atomic (v v1 v2 : SemanticValidator) (ds1 : List Declaration)
    (d : Declaration) (ds2 : List Declaration) (e : SemanticError)
    (h1 : v.addFileGo ds1 = (v1, none))
    (h2 : v1.addDeclaration d = (v2, some e)) :
    v.addFile ⟨ds1 ++ d :: ds2⟩ = (v2, some e)
    ∧ (∀ (w : SemanticValidator) (rs1 rs2 : List String), (∀ r ∈ rs1, r ≠ "") →
        w.addRoles ⟨rs1 ++ "" :: rs2⟩ =
          (rs1.foldl (fun acc r => { acc with roles := hsInsert acc.roles r }) w,
            some ⟨"Role name cannot be empty", "roles declaration"⟩)) := by
  constructor
  · show v.addFileGo (ds1 ++ d :: ds2) = _
    rw [addFileGo_append v ds1 (d :: ds2), h1]
    simp only [SemanticValidator.addFileGo, h2]
  · intro w rs1 rs2 hne
    exact addRolesGo_partial w rs1 rs2 hne

/-- Witness for C10: a unit declaring state `Mount`, then `Mount` again,
then state `Guard` fails on the duplicate while keeping the first `Mount`
accumulated and never reaching `Guard`; a roles declaration `[Top, "", X]`
keeps the insert of `Top`. -/
theorem c10_add_file_not_atomic_witness :
    SemanticValidator.new.addFile
      ⟨[.state ⟨"Mount", none⟩, .state ⟨"Mount", none⟩, .state ⟨"Guard", none⟩]⟩ =
      (⟨[], [("Mount", ⟨"Mount", none⟩)], [], []⟩,
        some ⟨"State 'Mount' is already defined", "state Mount"⟩)
    ∧ SemanticValidator.new.addRoles ⟨["Top", "", "X"]⟩ =
      (⟨["Top"], [], [], []⟩, some ⟨"Role name cannot be empty", "roles declaration"⟩) := by
  have h := c10_add_file_not_atomic SemanticValidator.new
    ⟨[], [("Mount", ⟨"Mount", none⟩)], [], []⟩
    ⟨[], [("Mount", ⟨"Mount", none⟩)], [], []⟩
    [.state ⟨"Mount", none⟩] (.state ⟨"Mount", none⟩) [.state ⟨"Guard", none⟩]
    ⟨"State 'Mount' is already defined", "state Mount"⟩ (by decide) (by decide)
  exact ⟨h.1, by
    have h2 := h.2 SemanticValidator.new ["Top"] ["X"] (by decide)
    simpa using h2⟩

theorem chain_cond_iff (a b : SequenceStep) :
    (a.toRef.state ≠ b.fromRef.state ∨ a.toRef.role ≠ b.fromRef.role) ↔ ¬ chainLink a b := by
  unfold chainLink
  constructor
  · rintro (h | h) ⟨h1, h2⟩
    · exact h h1.symm
    · exact h h2.symm
  · intro h
    by_cases h1 : b.fromRef.state = a.toRef.state
    · by_cases h2 : b.fromRef.role = a.toRef.role
      · exact absurd ⟨h1, h2⟩ h
      · exact Or.inr fun he => h2 he.symm
    · exact Or.inl fun he => h1 he.symm

theorem refAccepted_any (v : SemanticValidator) (r : StateRef) (h : refAccepted v r)
    (ctx : String) : v.validateStateRef r ctx = .ok () := by
  unfold refAccepted at h
  cases hg : mapGet v.states r.state with
  | none => simp [SemanticValidator.validateStateRef, hg] at h
  | some st =>
    by_cases hr : r.role ∈ v.roles
    · cases hal : st.allowedRoles with
      | none => simp [SemanticValidator.validateStateRef, hg, hr, hal]
      | some allowed =>
        by_cases hm : r.role ∈ allowed
        · simp [SemanticValidator.validateStateRef, hg, hr, hal, hm]
        · simp [SemanticValidator.validateStateRef, hg, hr, hal, hm] at h
    · simp [SemanticValidator.validateStateRef, hg, hr] at h

theorem validateStepsGo_some_ok_iff (v : SemanticValidator) (seqName : String)
    (l : List SequenceStep) :
    ∀ (i : Nat) (p : SequenceStep),
    (∀ s ∈ l, refAccepted v s.fromRef ∧ refAccepted v s.toRef) →
    (validateStepsGo v seqName i (some p) l = .ok () ↔ List.Chain' chainLink (p :: l)) := by
  induction l with
  | nil =>
    intro i p _
    simp [validateStepsGo]
  | cons step rest ih =>
    intro i p h
    have hf := refAccepted_any v step.fromRef (h step (List.mem_cons_self _ _)).1
    have ht := refAccepted_any v step.toRef (h step (List.mem_cons_self _ _)).2
    have hrest : ∀ s ∈ rest, refAccepted v s.fromRef ∧ refAccepted v s.toRef :=
      fun s hs => h s (List.mem_cons_of_mem _ hs)
    rw [List.chain'_cons]
    by_cases hc : chainLink p step
    · have hcond : ¬ (p.toRef.state ≠ step.fromRef.state ∨ p.toRef.role ≠ step.fromRef.role) :=
        fun hd => (chain_cond_iff p step).mp hd hc
      simp only [validateStepsGo, hf, ht, if_neg hcond]
      rw [ih (i + 1) step hrest]
      simp [hc]
    · have hcond : p.toRef.state ≠ step.fromRef.state ∨ p.toRef.role ≠ step.fromRef.role :=
        (chain_cond_iff p step).mpr hc
      simp only [validateStepsGo, hf, ht, if_pos hcond]
      simp [hc]

theorem validateStepsGo_none_ok_iff (v : SemanticValidator) (seqName : String)
    (l : List SequenceStep) (i : Nat)
    (h : ∀ s ∈ l, refAccepted v s.fromRef ∧ refAccepted v s.toRef) :
    (validateStepsGo v seqName i none l = .ok () ↔ List.Chain' chainLink l) := by
  cases l with
  | nil => simp [validateStepsGo]
  | cons step rest =>
    have hf := refAccepted_any v step.fromRef (h step (List.mem_cons_self _ _)).1
    have ht := refAccepted_any v step.toRef (h step (List.mem_cons_self _ _)).2
    have hrest : ∀ s ∈ rest, refAccepted v s.fromRef ∧ refAccepted v s.toRef :=
      fun s hs => h s (List.mem_cons_of_mem _ hs)
    simp only [validateStepsGo, hf, ht]
    exact validateStepsGo_some_ok_iff v seqName rest (i + 1) step hrest

theorem validateStepsGo_first_break (v : SemanticValidator) (seqName : String) (i : Nat)
    (a b : SequenceStep) (post : List SequenceStep)
    (hfb : refAccepted v b.fromRef) (htb : refAccepted v b.toRef)
    (hc : ¬ chainLink a b) :
    validateStepsGo v seqName i (some a) (b :: post) =
      .error ⟨brokenChainMsg a b, stepContext seqName i b.actionName⟩ := by
  have hcond : a.toRef.state ≠ b.fromRef.state ∨ a.toRef.role ≠ b.fromRef.role :=
    (chain_cond_iff a b).mpr hc
  simp only [validateStepsGo, refAccepted_any v b.fromRef hfb, refAccepted_any v b.toRef htb,
    if_pos hcond]

theorem validateStepsGo_break (v : SemanticValidator) (seqName : String)
    (a b : SequenceStep) (post : List SequenceStep) :
    ∀ (pre : List SequenceStep) (i : Nat) (q : SequenceStep),
    (∀ s ∈ pre ++ [a, b], refAccepted v s.fromRef ∧ refAccepted v s.toRef) →
    List.Chain' chainLink (q :: (pre ++ [a])) →
    ¬ chainLink a b →
    validateStepsGo v seqName i (some q) (pre ++ a :: b :: post) =
      .error ⟨brokenChainMsg a b, stepContext seqName (i + pre.length + 1) b.actionName⟩ := by
  intro pre
  induction pre with
  | nil =>
    intro i q h hchain hc
    have hfa := refAccepted_any v a.fromRef (h a (by simp)).1
    have hta := refAccepted_any v a.toRef (h a (by simp)).2
    have hfb := refAccepted_any v b.fromRef (h b (by simp)).1
    have htb := refAccepted_any v b.toRef (h b (by simp)).2
    have hqa : chainLink q a := by simpa using hchain
    have hcondqa : ¬ (q.toRef.state ≠ a.fromRef.state ∨ q.toRef.role ≠ a.fromRef.role) :=
      fun hd => (chain_cond_iff q a).mp hd hqa
    have hcondab : a.toRef.state ≠ b.fromRef.state ∨ a.toRef.role ≠ b.fromRef.role :=
      (chain_cond_iff a b).mpr hc
    simp only [List.nil_append, List.length_nil, validateStepsGo, hfa, hta, hfb, htb,
      if_neg hcondqa, if_pos hcondab, Nat.add_zero, Nat.zero_add]
  | cons x pre' ih =>
    intro i q h hchain hc
    have hfx := refAccepted_any v x.fromRef (h x (by simp)).1
    have htx := refAccepted_any v x.toRef (h x (by simp)).2
    have hqx : chainLink q x := by
      rw [List.cons_append, List.chain'_cons] at hchain
      exact hchain.1
    have hcond : ¬ (q.toRef.state ≠ x.fromRef.state ∨ q.toRef.role ≠ x.fromRef.role) :=
      fun hd => (chain_cond_iff q x).mp hd hqx
    have hchain' : List.Chain' chainLink (x :: (pre' ++ [a])) := by
      rw [List.cons_append, List.chain'_cons] at hchain
      exact hchain.2
    have hmem : ∀ s ∈ pre' ++ [a, b], refAccepted v s.fromRef ∧ refAccepted v s.toRef :=
      fun s hs => h s (by simp at hs ⊢; tauto)
    simp only [List.cons_append, validateStepsGo, hfx, htx, if_neg hcond, List.append_eq]
    rw [ih (i + 1) x hmem hchain' hc]
    have hidx : i + 1 + pre'.length + 1 = i + (x :: pre').length + 1 := by
      simp only [List.length_cons]
      omega
    rw [hidx]

theorem validateSequencesGo_ok_iff (v : SemanticValidator) (l : List (String × Sequence)) :
    validateSequencesGo v l = .ok () ↔
      ∀ p ∈ l, validateSequenceSteps v p.1 p.2 = .ok () := by
  induction l with
  | nil => simp [validateSequencesGo]
  | cons hd tl ih =>
    obtain ⟨n, s⟩ := hd
    cases hh : validateSequenceSteps v n s with
    | error e => simp [validateSequencesGo, hh]
    | ok u =>
      cases u
      simp [validateSequencesGo, hh, ih]

/-- C2: the sequences check succeeds exactly when every accumulated sequence
passes its per-sequence check; for a sequence all of whose endpoints are
accepted by validate_state_ref, the per-sequence check succeeds exactly
when every step's `from` equals the previous step's `to` in state and role;
and at the first broken link the check fails with the broken-chain error
naming the previous step's `to` endpoint and the current step's `from`
endpoint. -/
theorem c2_chain_continuity (v : SemanticValidator) (seqName : String) (sequence : Sequence)
    (hne : sequence.steps ≠ [])
    (hrefs : ∀ s ∈ sequence.steps, refAccepted v s.fromRef ∧ refAccepted v s.toRef) :
    (v.validateSequences = .ok () ↔
      ∀ p ∈ v.sequences, validateSequenceSteps v p.1 p.2 = .ok ())
    ∧ (validateSequenceSteps v seqName sequence = .ok () ↔
        List.Chain' chainLink sequence.steps)
    ∧ (∀ pre a b post, sequence.steps = pre ++ a :: b :: post →
        List.Chain' chainLink (pre ++ [a]) →
        ¬ chainLink a b →
        validateSequenceSteps v seqName sequence =
          .error ⟨brokenChainMsg a b, stepContext seqName (pre.length + 1) b.actionName⟩) := by
  have hempty : sequence.steps.isEmpty = false := by
    cases hs : sequence.steps with
    | nil => exact absurd hs hne
    | cons x xs => rfl
  have hval : validateSequenceSteps v seqName sequence =
      validateStepsGo v seqName 0 none sequence.steps := by
    unfold validateSequenceSteps
    rw [hempty]
    rfl
  refine ⟨validateSequencesGo_ok_iff v v.sequences, ?_, ?_⟩
  · rw [hval]
    exact validateStepsGo_none_ok_iff v seqName sequence.steps 0 hrefs
  · intro pre a b post hsteps hchain hc
    rw [hval]
    rw [hsteps] at hrefs ⊢
    cases pre with
    | nil =>
      have hfa := refAccepted_any v a.fromRef (hrefs a (by simp)).1
      have hta := refAccepted_any v a.toRef (hrefs a (by simp)).2
      have hfb := refAccepted_any v b.fromRef (hrefs b (by simp)).1
      have htb := refAccepted_any v b.toRef (hrefs b (by simp)).2
      have hcondab : a.toRef.state ≠ b.fromRef.state ∨ a.toRef.role ≠ b.fromRef.role :=
        (chain_cond_iff a b).mpr hc
      simp only [List.nil_append, List.length_nil, validateStepsGo, hfa, hta, hfb, htb,
        if_pos hcondab, Nat.add_zero, Nat.zero_add]
    | cons x pre' =>
      have hfx := refAccepted_any v x.fromRef (hrefs x (by simp)).1
      have htx := refAccepted_any v x.toRef (hrefs x (by simp)).2
      have hchain' : List.Chain' chainLink (x :: (pre' ++ [a])) := by
        rw [List.cons_append] at hchain
        exact hchain
      have hmem : ∀ s ∈ pre' ++ [a, b], refAccepted v s.fromRef ∧ refAccepted v s.toRef :=
        fun s hs => hrefs s (by simp at hs ⊢; tauto)
      simp only [List.cons_append, validateStepsGo, hfx, htx, List.append_eq]
      rw [validateStepsGo_break v seqName a b post pre' 1 x hmem hchain' hc]
      have hidx : 1 + pre'.length + 1 = (x :: pre').length + 1 := by
        simp only [List.length_cons]
        omega
      rw [hidx]

/-- Witness for C2: the matching two-step chain `A[r1]->B[r2], B[r2]->C[r3]`
over declared roles and states passes the per-sequence check. -/
theorem c2_chain_continuity_witness :
    validateSequenceSteps vC2 "Flow" seqC2 = .ok () ↔
      List.Chain' chainLink seqC2.steps :=
  (c2_chain_continuity vC2 "Flow" seqC2 (by decide) (by decide)).2.1

theorem tokenizeGo_eof (n : Nat) :
    ∀ (l : Lexer) (ts : List PositionedToken), tokenizeGo n l = .ok ts →
    (ts.map PositionedToken.token).getLast? = some Token.eof ∧
    (ts.map PositionedToken.token).count Token.eof = 1 := by
  induction n with
  | zero =>
    intro l ts h
    simp [tokenizeGo] at h
  | succ n ih =>
    intro l ts h
    simp only [tokenizeGo] at h
    split at h
    · exact Except.noConfusion h
    · rename_i pt l' hnt
      split at h
      · rename_i he
        simp only [Except.ok.injEq] at h
        subst h
        simp [he]
      · rename_i he
        split at h
        · exact Except.noConfusion h
        · rename_i ts' hrec
          simp only [Except.ok.injEq] at h
          subst h
          obtain ⟨hlast, hcount⟩ := ih l' ts' hrec
          have hne : (ts'.map PositionedToken.token) ≠ [] := by
            intro hnil
            rw [hnil] at hlast
            cases hlast
          obtain ⟨y, ys, hys⟩ := List.exists_cons_of_ne_nil hne
          constructor
          · rw [List.map_cons, hys, List.getLast?_cons_cons, ← hys]
            exact hlast
          · rw [List.map_cons, List.count_cons]
            simp [he, hcount]

/-- C7: whenever full tokenization succeeds, the produced token sequence
ends with the end-of-input token, that token occurs exactly once, and hence
nothing follows it: tokenization stops right after emitting it. -/
theorem c7_tokenize_eof (l : Lexer) (ts : List PositionedToken) (h : l.tokenize = .ok ts) :
    (ts.map PositionedToken.token).getLast? = some Token.eof ∧
    (ts.map PositionedToken.token).count Token.eof = 1 :=
  tokenizeGo_eof (l.input.length - l.position + 1) l ts h

/-- Witness for C7: tokenizing the input `a` produces the identifier and one
final end-of-input token. -/
theorem c7_tokenize_eof_witness :
    (tsC7.map PositionedToken.token).getLast? = some Token.eof ∧
    (tsC7.map PositionedToken.token).count Token.eof = 1 :=
  c7_tokenize_eof (Lexer.new "a") tsC7 (by decide)

/-- C8: when the first character after skipping is `-`, next_token produces
the arrow token exactly when the immediately following character is `>`;
otherwise it fails with the message reporting what was found after `-`
(`None` when input ends) at the position of the `-` itself, which was
captured before consuming. -/
theorem c8_arrow_lexing (l : Lexer) (h : l.skipWsComments.peek = some '-') :
    (l.skipWsComments.advance.peek = some '>' →
      l.nextToken = .ok (⟨Token.arrow, l.skipWsComments.currentPosition⟩,
        l.skipWsComments.advance.advance))
    ∧ (l.skipWsComments.advance.peek ≠ some '>' →
      l.nextToken = .error ⟨"Expected '>' after '-', got " ++
        optCharDebug l.skipWsComments.advance.peek,
        l.skipWsComments.currentPosition⟩) := by
  constructor
  · intro hgt
    simp [Lexer.nextToken, h, hgt]
  · intro hgt
    simp [Lexer.nextToken, h, hgt]

/-- Witness for C8: the input `->` lexes to the arrow token at line 1,
column 1, and on the input `- x` the space after the `-` is reported at the
position of the `-`. -/
theorem c8_arrow_lexing_witness :
    (Lexer.new "->").nextToken =
      .ok (⟨Token.arrow, (Lexer.new "->").skipWsComments.currentPosition⟩,
        (Lexer.new "->").skipWsComments.advance.advance)
    ∧ (Lexer.new "- x").nextToken =
      .error ⟨"Expected '>' after '-', got " ++
        optCharDebug (Lexer.new "- x").skipWsComments.advance.peek,
        (Lexer.new "- x").skipWsComments.currentPosition⟩ :=
  ⟨(c8_arrow_lexing (Lexer.new "->") (by decide)).1 (by decide),
    (c8_arrow_lexing (Lexer.new "- x") (by decide)).2 (by decide)⟩

theorem nextToken_other (l : Lexer) (c : Char) (h : l.skipWsComments.peek = some c)
    (h1 : c ≠ '\x7b') (h2 : c ≠ '\x7d') (h3 : c ≠ '[') (h4 : c ≠ ']') (h5 : c ≠ ':')
    (h6 : c ≠ ',') (h7 : c ≠ '-') (h8 : rustIsAlphabetic c = false) (h9 : c ≠ '_') :
    l.nextToken = .error ⟨"Unexpected character: '" ++ String.singleton c ++ "'",
      l.skipWsComments.currentPosition⟩ := by
  simp [Lexer.nextToken, h, h1, h2, h3, h4, h5, h6, h7, h8, h9]

theorem advance_position_ge (l : Lexer) : l.position ≤ l.advance.position := by
  unfold Lexer.advance
  split
  · split
    · exact Nat.le_succ _
    · exact Nat.le_succ _
  · exact Nat.le_refl _

theorem advance_position_eq (l : Lexer) (c : Char) (h : l.peek = some c) :
    l.advance.position = l.position + 1 := by
  unfold Lexer.advance
  rw [h]
  split
  · rename_i ch heq
    split <;> rfl
  · rename_i heq
    exact Option.noConfusion heq

theorem lexIdentifierGo_position_ge (n : Nat) :
    ∀ (acc : List Char) (l : Lexer), l.position ≤ (lexIdentifierGo n acc l).2.position := by
  induction n with
  | zero => intro acc l; exact Nat.le_refl _
  | succ n ih =>
    intro acc l
    simp only [lexIdentifierGo]
    split
    · split
      · exact Nat.le_trans (advance_position_ge l) (ih _ _)
      · exact Nat.le_refl _
    · exact Nat.le_refl _

theorem lexIdentifier_consumes (l : Lexer) (c : Char) (h : l.peek = some c)
    (hc : (rustIsAlphanumeric c || c = '_') = true) :
    l.position < l.lexIdentifier.2.position := by
  have hlt : l.position < l.input.length := by
    by_contra hge
    have hnone : l.peek = none := by
      unfold Lexer.peek
      exact List.getElem?_eq_none (by omega)
    rw [hnone] at h
    cases h
  obtain ⟨m, hm⟩ : ∃ m, l.input.length - l.position = m + 1 :=
    ⟨l.input.length - l.position - 1, by omega⟩
  unfold Lexer.lexIdentifier
  rw [hm]
  simp only [lexIdentifierGo, h, hc, if_pos]
  have h1 : l.advance.position = l.position + 1 := advance_position_eq l c h
  have h2 := lexIdentifierGo_position_ge m ([] ++ [c]) l.advance
  omega

/-- C9: when the first character after skipping is an ASCII digit,
next_token fails with the unexpected-character error at that position (a
digit cannot start an identifier), while the identifier loop does accept a
digit as a continuation character: on any state whose next character is
that digit, lex_identifier consumes it. -/
theorem c9_digit_start_rejected (l : Lexer) (c : Char)
    (h : l.skipWsComments.peek = some c) (hd : rustIsAsciiDigit c = true) :
    l.nextToken = .error ⟨"Unexpected character: '" ++ String.singleton c ++ "'",
      l.skipWsComments.currentPosition⟩
    ∧ ∀ l' : Lexer, l'.peek = some c → l'.position < l'.lexIdentifier.2.position := by
  have hcases : c = '0' ∨ c = '1' ∨ c = '2' ∨ c = '3' ∨ c = '4' ∨ c = '5' ∨ c = '6' ∨
      c = '7' ∨ c = '8' ∨ c = '9' := by
    simpa [rustIsAsciiDigit] using hd
  constructor
  · rcases hcases with rfl | rfl | rfl | rfl | rfl | rfl | rfl | rfl | rfl | rfl <;>
      exact nextToken_other l _ h (by decide) (by decide) (by decide) (by decide) (by decide)
        (by decide) (by decide) (by decide) (by decide)
  · intro l' hl'
    refine lexIdentifier_consumes l' c hl' ?_
    rcases hcases with rfl | rfl | rfl | rfl | rfl | rfl | rfl | rfl | rfl | rfl <;> decide

/-- Witness for C9: on the input `9x` the leading digit is rejected with the
unexpected-character error at line 1, column 1. -/
theorem c9_digit_start_rejected_witness :
    (Lexer.new "9x").nextToken =
      .error ⟨"Unexpected character: '" ++ String.singleton '9' ++ "'",
        (Lexer.new "9x").skipWsComments.currentPosition⟩ :=
  (c9_digit_start_rejected (Lexer.new "9x") '9' (by decide) (by decide)).1

end Matlang
